import Mathlib

/-!
Verification of the FastLED CI helper scripts
(`ci/ci/compile_for_board.py` and `ci/docs.py`).

The two Python files are sequential orchestration of external processes.
We embed their decision logic shallowly:

* the external `pio ci` invocation becomes an oracle
  `runPio : String → String → PioResult` giving, for a (board, example)
  pair, the exit code and the captured combined stdout/stderr text;
* Python's `str.replace` becomes a fuel-indexed executable function
  `replaceF` with the same left-to-right, non-rescanning semantics;
* the module-level mutable `ERROR_HAPPENED` flag becomes explicit
  state threaded through `compile_examples`;
* acquiring `FIRST_BUILD_LOCK` is recorded in an explicit trace of
  compile invocations `(example, heldGate)`, in order;
* `re.sub(r"(?m)^PROJECT_NUMBER\s*=.*", ...)` in `docs.py` becomes a
  hand-rolled matcher for exactly that pattern, documented below.
-/

namespace CompileForBoard

/-! ### Python `str.replace`

`replaceF pat repl fuel s` replaces the non-overlapping occurrences of
`pat` in `s` by `repl`, scanning left to right and never rescanning
replaced text — the semantics of Python's `str.replace`.  `fuel` makes
the recursion structural (each step consumes at least one character of
`s`, so any `fuel ≥ s.length` computes the total function). -/
def replaceF (pat repl : List Char) : Nat → List Char → List Char
  | _, [] => []
  | 0, s => s
  | n + 1, c :: s =>
    if pat.isPrefixOf (c :: s) then
      repl ++ replaceF pat repl n ((c :: s).drop pat.length)
    else
      c :: replaceF pat repl n s

/-- Python `s.replace(pat, repl)`.  The scripts only call it with the
nonempty literal patterns `"lib/src"` and `"lib\src"`; the empty-pattern
case (Python would intersperse `repl`) is never exercised and modelled
as the identity. -/
def pyReplace (pat repl s : String) : String :=
  if pat.data.isEmpty then s
  else ⟨replaceF pat.data repl.data s.data.length s.data⟩

/-- Model of `stdout.replace("lib/src", "src").replace("lib\\src", "src")`
from `compile_for_board_and_example` (line 66). -/
def normalize_output (s : String) : String :=
  pyReplace "lib\\src" "src" (pyReplace "lib/src" "src" s)

/-- Does `pat` occur as a contiguous substring?  Decidable occurrence
check used to state the alias-absent cases. -/
def occursIn (pat : List Char) : List Char → Bool
  | [] => pat.isEmpty
  | c :: s => pat.isPrefixOf (c :: s) || occursIn pat s

/-- Result of one external `pio ci` invocation: exit code and the
captured combined stdout/stderr text. -/
structure PioResult where
  returncode : Int
  stdout : String
deriving DecidableEq

/-- `compile_for_board_and_example` (lines 22–72): run the external
build tool, apply the `lib/src` → `src` path-alias substitution to the
captured text, and return success iff the exit code is zero.  In the
source the substitution (line 66) happens before the exit-code check
(line 68), so the returned text is the substituted text in both the
failure and the success branch.  Directory setup and the synchronized
printing are I/O with no influence on the returned pair and are not
modelled. -/
def compile_for_board_and_example (runPio : String → String → PioResult)
    (board ex : String) : Bool × String :=
  let result := runPio board ex
  let stdout := normalize_output result.stdout
  if result.returncode ≠ 0 then (false, stdout)
  else (true, stdout)

/-- Initial value of the module-level `ERROR_HAPPENED` flag (line 9). -/
def ERROR_HAPPENED_init : Bool := false

/-- `errors_happened` (lines 17–19): read the flag. -/
def errors_happened (error_happened : Bool) : Bool := error_happened

/-- `USE_FIRST_BUILD_LOCK = IS_GITHUB` (line 14): the constrained-CI
condition, a function of whether `GITHUB_ACTIONS` is in the
environment. -/
def USE_FIRST_BUILD_LOCK (is_github : Bool) : Bool := is_github

/-- Observable outcome of one `compile_examples` batch: the returned
`(success, message)` pair, the `ERROR_HAPPENED` flag after the call, and
the trace of compile invocations performed, in order, each tagged with
whether it was run holding `FIRST_BUILD_LOCK`. -/
structure BatchResult where
  success : Bool
  message : String
  errorHappened : Bool
  compiled : List (String × Bool)
deriving DecidableEq

/-- The loop body of `compile_examples` (lines 83–107).  `flag` is the
value of `ERROR_HAPPENED` on entry of the iteration, `isFirst` the
`is_first` local.  The flag is checked at the head of each iteration
(line 84); the gate is held exactly when `is_first and
USE_FIRST_BUILD_LOCK` (line 89); on failure the flag is set and the
loop returns the formatted message (lines 101–106). -/
def compile_examples_go (useLock : Bool) (runPio : String → String → PioResult)
    (board : String) : List String → Bool → Bool → BatchResult
  | [], flag, _ => ⟨true, "", flag, []⟩
  | e :: rest, flag, isFirst =>
    if flag then ⟨true, "", flag, []⟩
    else
      let heldGate := isFirst && useLock
      let r := compile_for_board_and_example runPio board e
      if r.1 then
        let tail := compile_examples_go useLock runPio board rest flag false
        ⟨tail.success, tail.message, tail.errorHappened, (e, heldGate) :: tail.compiled⟩
      else
        ⟨false,
         "Error building " ++ e ++ " for board " ++ board ++ ". stdout:\n" ++ r.2,
         true, [(e, heldGate)]⟩

/-- `compile_examples` (lines 76–107): process the batch for one board,
starting with `is_first = True`. -/
def compile_examples (useLock : Bool) (runPio : String → String → PioResult)
    (board : String) (examples : List String) (flag : Bool) : BatchResult :=
  compile_examples_go useLock runPio board examples flag true

end CompileForBoard

namespace Docs

/-- Python's `a or b` on strings: the empty string is falsy, so this is
`b` when `a` is empty and `a` otherwise. -/
def pyOr (a b : String) : String := if a = "" then b else a

/-- `get_git_info` (lines 43–63) as a function of its four external
inputs: the `RELEASE_TAG` environment value (empty when unset), the
latest numeric-prefixed git tag (empty when there is none or the query
failed), and the short and full commit SHAs.  Returns
`(project_number, commit_message)`. -/
def get_git_info (release_tag latest_tag git_sha_short full_sha : String) :
    String × String :=
  let project_number := pyOr release_tag (pyOr latest_tag git_sha_short)
  let commit_message :=
    if project_number ≠ git_sha_short then
      project_number ++ " (" ++ full_sha ++ ")"
    else project_number
  (project_number, commit_message)

/-- `DOXYGEN_VERSION` (line 17). -/
def DOXYGEN_VERSION : String := "1.11.0"

/-- `install_doxygen_windows` (lines 66–80) as a function of the result
of the pattern search `next(extract_dir.glob("**/doxygen.exe"), None)`
over the extracted tree (the download and extraction are I/O and do not
influence the returned value): `None` raises `FileNotFoundError`,
otherwise the located path is returned. -/
def install_doxygen_windows (found_bin : Option String) : Except String String :=
  match found_bin with
  | none => .error "Doxygen executable not found after extraction."
  | some p => .ok p

/-- `install_doxygen_unix` (lines 83–90): after the download and
extraction commands, the expected binary path
`doxygen-{DOXYGEN_VERSION}/bin/doxygen` is constructed and returned with
no existence check, so this function never raises a not-found error. -/
def install_doxygen_unix : Except String String :=
  .ok ("doxygen-" ++ DOXYGEN_VERSION ++ "/bin/doxygen")

/-! ### The `update_doxyfile` substitution

`update_doxyfile` (lines 105–111) rewrites the Doxyfile text with

  `re.sub(r"(?m)^PROJECT_NUMBER\s*=.*", f"PROJECT_NUMBER = {version}", text)`

We model this regex substitution exactly, at the granularity of lines
(the text split on `'\n'`):

* with `(?m)`, `^` matches at the start of the text and right after
  every `'\n'`, so every match begins at a line start;
* `.` does not match `'\n'`, so the trailing `.*` consumes exactly the
  rest of the line on which the `=` was found;
* `\s` does match `'\n'`, so the whitespace run after the literal
  `PROJECT_NUMBER` may span line breaks: a match is either a single
  line `PROJECT_NUMBER`‑whitespace‑`=`‑rest, or a line that is
  `PROJECT_NUMBER` followed only by whitespace, then any number of
  all-whitespace lines, then a line whose first non-whitespace
  character is `=` (consumed entirely);
* the greedy `\s*` backtracks only to positions whose next character is
  `=`; every position inside the run has a whitespace (non-`=`) next
  character, so the run consumed is exactly the maximal one;
* `re.sub` replaces the non-overlapping matches left to right,
  continuing the scan at the end of each match, which is always just
  before a `'\n'` or the end of the text; hence each match consumes a
  whole number of lines and the scan resumes at the next line.

`\s` is modelled by exactly the characters Python's `re` matches for
`str` patterns (the ASCII whitespace and separator controls plus the
Unicode whitespace code points, enumerated in `isWs`), so the matcher
agrees with the source on every text.

Python additionally processes the replacement string as a template
before substituting: a backslash starts an escape (`\n` becomes a real
newline, `\g<0>` the matched text, an invalid group reference such as
`\1` raises `re.error` — eagerly, even when the text has no match).
The version string interpolated into `f"PROJECT_NUMBER =
{project_number}"` is therefore substituted literally exactly when it
contains no backslash.  We model the template literally and state
every property that quantifies over the version string under the
hypothesis that it is backslash-free — the domain on which the model
is faithful. -/

/-- Python's regex class `\s` for `str` patterns: exactly the code
points `c` with `re.match(r"\s", c)` succeeding — the ASCII whitespace
`\t`, `\n`, `\x0b`, `\x0c`, `\r`, space, the separator controls
`\x1c`-`\x1f`, next line `\x85`, no-break space `\xa0`, ogham space
mark ` `, the fixed-width spaces ` `-` `, line and
paragraph separators ` `/` `, narrow no-break space
` `, medium mathematical space ` ` and ideographic space
`　` (the set was enumerated against CPython). -/
def isWs (c : Char) : Bool :=
  c = '\t' || c = '\n' || c = '\x0b' || c = '\x0c' || c = '\r' ||
  c = '\x1c' || c = '\x1d' || c = '\x1e' || c = '\x1f' || c = ' ' ||
  c = '\u0085' || c = ' ' || c = ' ' ||
  (' ' ≤ c && c ≤ ' ') ||
  c = ' ' || c = ' ' || c = ' ' || c = ' ' ||
  c = '　'

/-- The literal key `PROJECT_NUMBER` of the regex. -/
def KEY : List Char := "PROJECT_NUMBER".data

/-- The replacement text `PROJECT_NUMBER = {version}` (line 109),
substituted literally.  Python first runs the replacement string
through `re`'s template-escape processing, which is the identity
exactly when the string contains no backslash; since the fixed prefix
`PROJECT_NUMBER = ` has none, this models the template faithfully for
every backslash-free version string, and the theorems below quantify
over the version string only under that hypothesis. -/
def replData (v : String) : List Char := "PROJECT_NUMBER = ".data ++ v.data

/-- Continuation of a match whose whitespace run reached the end of the
starting line: skip all-whitespace lines; if a line whose first
non-whitespace character is `=` is reached, the match succeeds and
consumes that whole line, returning the lines after it; a line with any
other first non-whitespace character aborts the match, as does the end
of the text. -/
def contMatch : List (List Char) → Option (List (List Char))
  | [] => none
  | l :: ls =>
    match l.dropWhile isWs with
    | [] => contMatch ls
    | c :: _ => if c = '=' then some ls else none

/-- Does a match of `^PROJECT_NUMBER\s*=.*` start at line `l` (with
following lines `ls`)?  If so, return the lines after the match. -/
def tryMatch (l : List Char) (ls : List (List Char)) :
    Option (List (List Char)) :=
  if KEY.isPrefixOf l then
    match (l.drop KEY.length).dropWhile isWs with
    | [] => contMatch ls
    | c :: _ => if c = '=' then some ls else none
  else none

/-- The substitution over the list of lines: scan lines left to right,
replacing each match (a run of one or more consumed lines) by the
replacement text.  `fuel` makes the recursion structural; any
`fuel ≥ lls.length` computes the total function, since every step
consumes at least one line. -/
def updLinesF (repl : List Char) : Nat → List (List Char) → List (List Char)
  | _, [] => []
  | 0, lls => lls
  | n + 1, l :: ls =>
    match tryMatch l ls with
    | some rest => repl :: updLinesF repl n rest
    | none => l :: updLinesF repl n ls

/-- Split a text on `'\n'` (Python's view of `(?m)` line starts): the
result is always nonempty and its elements contain no `'\n'`. -/
def splitLines : List Char → List (List Char)
  | [] => [[]]
  | c :: s =>
    if c = '\n' then [] :: splitLines s
    else
      match splitLines s with
      | [] => [[c]]
      | l :: ls => (c :: l) :: ls

/-- Join lines with `'\n'`, inverse of `splitLines`. -/
def joinLines : List (List Char) → List Char
  | [] => []
  | [l] => l
  | l :: l' :: ls => l ++ '\n' :: joinLines (l' :: ls)

/-- `update_doxyfile` (lines 105–111) as a text-to-text function: the
file read and write are I/O; the text transformation is the `re.sub`
modelled by `updLinesF` on the lines of the text.  Faithful to the
source for every text and every backslash-free version string (see
`replData`); a backslash in the version string would trigger Python's
template-escape processing — possibly an eagerly raised
`invalid group reference` — which is outside this model, so no theorem
below covers that case. -/
def update_doxyfile (project_number : String) (doxyfile : String) : String :=
  let lines := splitLines doxyfile.data
  ⟨joinLines (updLinesF (replData project_number) lines.length lines)⟩

end Docs

namespace CompileForBoard

/-- Substring containment: `needle` occurs contiguously in `hay`. -/
def strContains (hay needle : String) : Prop :=
  ∃ l r, hay.data = l ++ needle.data ++ r

/-- A fixed compile oracle for concrete instances: every compile exits 0
with output `"ok"`. -/
def okOracle : String → String → PioResult := fun _ _ => ⟨0, "ok"⟩

/-- If the pattern never occurs in `s`, `replaceF` returns `s`
unchanged, for any fuel. -/
theorem replaceF_of_occursIn_eq_false (pat repl : List Char) :
    ∀ (n : Nat) (s : List Char), occursIn pat s = false →
      replaceF pat repl n s = s := by
  intro n
  induction n with
  | zero => intro s _; cases s <;> rfl
  | succ n ih =>
    intro s h
    cases s with
    | nil => rfl
    | cons c s =>
      simp only [occursIn, Bool.or_eq_false_iff] at h
      simp only [replaceF, h.1, Bool.false_eq_true, if_false]
      exact congrArg (c :: ·) (ih s h.2)

/-- Neither path alias occurs in the string. -/
def aliasFree (s : String) : Prop :=
  occursIn "lib/src".data s.data = false ∧ occursIn "lib\\src".data s.data = false

instance aliasFree.decidable (s : String) : Decidable (aliasFree s) := by
  unfold aliasFree; infer_instance

/-- If the pattern does not occur, `pyReplace` is the identity. -/
theorem pyReplace_of_occursIn_eq_false (pat repl s : String)
    (h : occursIn pat.data s.data = false) : pyReplace pat repl s = s := by
  unfold pyReplace
  split
  · rfl
  · rw [replaceF_of_occursIn_eq_false pat.data repl.data s.data.length s.data h]

/-- C10: for every board, `compile_examples` applied to an empty example
sequence returns `(True, "")` without invoking any compile (empty
trace, so in particular no gate acquisition) and without modifying the
global error flag. -/
theorem compile_examples_empty (useLock : Bool)
    (runPio : String → String → PioResult) (board : String) (flag : Bool) :
    compile_examples useLock runPio board [] flag = ⟨true, "", flag, []⟩ := rfl

/-- C1: for every board and example sequence, whenever the global error
flag is true at the start of an iteration of the batch loop (here: on
entry of the recursive loop, each recursive call being one iteration),
`compile_examples` returns `(True, "")` immediately and performs no
further compile invocation in that batch (empty trace); the flag is
left true. -/
theorem compile_examples_short_circuits_on_error_flag (useLock : Bool)
    (runPio : String → String → PioResult) (board : String)
    (examples : List String) (flag : Bool) (h : flag = true) :
    compile_examples useLock runPio board examples flag = ⟨true, "", true, []⟩ := by
  subst h
  cases examples <;> rfl

/-- Witness for C1 at concrete inputs. -/
theorem compile_examples_short_circuits_on_error_flag_witness :
    compile_examples true okOracle "uno" ["Blink", "Fade"] true
      = ⟨true, "", true, []⟩ :=
  compile_examples_short_circuits_on_error_flag true okOracle "uno"
    ["Blink", "Fade"] true rfl

/-- The flag after a batch is the flag before, or-ed with the failure of
the batch: the flag is never reset, and the only write sets it to
true. -/
theorem compile_examples_go_flag (useLock : Bool)
    (runPio : String → String → PioResult) (board : String) :
    ∀ (examples : List String) (flag isFirst : Bool),
      (compile_examples_go useLock runPio board examples flag isFirst).errorHappened
        = (flag ||
           !(compile_examples_go useLock runPio board examples flag isFirst).success) := by
  intro examples
  induction examples with
  | nil => intro flag isFirst; simp [compile_examples_go]
  | cons e rest ih =>
    intro flag isFirst
    cases flag with
    | true => simp [compile_examples_go]
    | false =>
      simp only [compile_examples_go, Bool.false_eq_true, if_false, Bool.false_or]
      cases h : (compile_for_board_and_example runPio board e).1 <;>
        simp [h, ih false false]

/-- C9: the global error flag is monotone within a run: `ERROR_HAPPENED`
starts false, and after any batch the flag read by `errors_happened`
equals the flag before the batch or-ed with the batch's failure — so the
only write sets it to true, no operation resets it to false, and once
`errors_happened` returns true it stays true. -/
theorem error_flag_monotone :
    errors_happened ERROR_HAPPENED_init = false ∧
    ∀ (useLock : Bool) (runPio : String → String → PioResult) (board : String)
      (examples : List String) (flag : Bool),
      errors_happened
          (compile_examples useLock runPio board examples flag).errorHappened
        = (errors_happened flag ||
           !(compile_examples useLock runPio board examples flag).success) :=
  ⟨rfl, fun useLock runPio board examples flag =>
    compile_examples_go_flag useLock runPio board examples flag true⟩

/-- The compile oracle refuting C4: the external tool exits 1 and its
captured output contains the path alias. -/
def c4Oracle : String → String → PioResult := fun _ _ => ⟨1, "lib/src file.cpp"⟩

/-- Counterexample to C4: on non-zero exit the returned text is not the
raw captured text — the source applies the path-alias substitution
(line 66) before the exit-code check (line 68), so the failure branch
also returns the substituted text. -/
theorem compile_for_board_and_example_failure_cex :
    compile_for_board_and_example c4Oracle "uno" "Blink"
      = (false, "src file.cpp") ∧
    compile_for_board_and_example c4Oracle "uno" "Blink"
      ≠ (false, "lib/src file.cpp") := by
  constructor <;> decide

/-- C4 as amended: for every board, example and captured output, the
result is `(False, t')` on non-zero exit and `(True, t')` on zero exit,
where `t'` is in both cases the captured output with the
library-path-alias substitution applied. -/
theorem compile_for_board_and_example_spec
    (runPio : String → String → PioResult) (board ex : String) :
    compile_for_board_and_example runPio board ex
      = (decide ((runPio board ex).returncode = 0),
         normalize_output (runPio board ex).stdout) := by
  unfold compile_for_board_and_example
  by_cases h : (runPio board ex).returncode = 0 <;> simp [h]

/-- Counterexample to C5: the normalization is not idempotent.  On
`"lib/lib/srcsrc"` one application yields `"lib/srcsrc"` (the
replacement is left-to-right and does not rescan replaced text, and the
splice creates a fresh occurrence of the alias), and a second
application yields `"srcsrc"`. -/
theorem normalize_output_not_idempotent :
    normalize_output "lib/lib/srcsrc" = "lib/srcsrc" ∧
    normalize_output (normalize_output "lib/lib/srcsrc") = "srcsrc" ∧
    normalize_output (normalize_output "lib/lib/srcsrc")
      ≠ normalize_output "lib/lib/srcsrc" := by
  refine ⟨by decide, by decide, by decide⟩

/-- C5 as amended: the normalization replaces the non-overlapping
occurrences of the aliases left to right without rescanning replaced
text; it is the identity on strings containing no alias, and it is
idempotent on every string whose normalization contains no alias (but
not on all strings, since a replacement splice can create a fresh
occurrence). -/
theorem normalize_output_amended (s : String) :
    (aliasFree s → normalize_output s = s) ∧
    (aliasFree (normalize_output s) →
      normalize_output (normalize_output s) = normalize_output s) :=
  have key : ∀ t : String, aliasFree t → normalize_output t = t := by
    intro t h
    unfold normalize_output
    rw [pyReplace_of_occursIn_eq_false _ _ _ h.1,
        pyReplace_of_occursIn_eq_false _ _ _ h.2]
  ⟨key s, key (normalize_output s)⟩

/-- Witness for C5's amended theorem at concrete inputs. -/
theorem normalize_output_amended_witness :
    aliasFree "examples/Blink" ∧
    normalize_output "examples/Blink" = "examples/Blink" :=
  ⟨by decide, (normalize_output_amended "examples/Blink").1 (by decide)⟩

/-- If every compile before `e` succeeds and the compile of `e` fails,
the loop returns the formatted failure message, sets the flag, and the
trace is exactly the successful prefix followed by `e`. -/
theorem compile_examples_go_failure (useLock : Bool)
    (runPio : String → String → PioResult) (board : String) :
    ∀ (pre : List String) (e : String) (post : List String) (isFirst : Bool),
      (∀ x ∈ pre, (compile_for_board_and_example runPio board x).1 = true) →
      (compile_for_board_and_example runPio board e).1 = false →
      ∃ tr,
        compile_examples_go useLock runPio board (pre ++ e :: post) false isFirst
          = ⟨false,
             "Error building " ++ e ++ " for board " ++ board ++ ". stdout:\n"
               ++ (compile_for_board_and_example runPio board e).2,
             true, tr⟩
        ∧ tr.map Prod.fst = pre ++ [e] := by
  intro pre
  induction pre with
  | nil =>
    intro e post isFirst _ he
    refine ⟨[(e, isFirst && useLock)], ?_, rfl⟩
    simp [compile_examples_go, he]
  | cons x pre ih =>
    intro e post isFirst hpre he
    have hx : (compile_for_board_and_example runPio board x).1 = true :=
      hpre x (by simp)
    obtain ⟨tr, htr, hmap⟩ :=
      ih e post false (fun y hy => hpre y (by simp [hy])) he
    refine ⟨(x, isFirst && useLock) :: tr, ?_, by simp [hmap]⟩
    simp only [List.cons_append, compile_examples_go, Bool.false_eq_true,
      if_false]
    simp [hx, htr]

/-- C2: for every board and example sequence, if the compile of example
`e` fails while every example before it succeeded, `compile_examples`
sets the global error flag, returns failure, the message contains the
example name, the board name and the captured compiler output (the text
returned by `compile_for_board_and_example`), and no example after `e`
is compiled (the trace is exactly the prefix up to and including
`e`). -/
theorem compile_examples_failure (useLock : Bool)
    (runPio : String → String → PioResult) (board : String)
    (pre : List String) (e : String) (post : List String)
    (hpre : ∀ x ∈ pre, (compile_for_board_and_example runPio board x).1 = true)
    (he : (compile_for_board_and_example runPio board e).1 = false) :
    (compile_examples useLock runPio board (pre ++ e :: post) false).success
      = false ∧
    (compile_examples useLock runPio board (pre ++ e :: post) false).errorHappened
      = true ∧
    (compile_examples useLock runPio board (pre ++ e :: post) false).compiled.map
      Prod.fst = pre ++ [e] ∧
    strContains
      (compile_examples useLock runPio board (pre ++ e :: post) false).message e ∧
    strContains
      (compile_examples useLock runPio board (pre ++ e :: post) false).message
      board ∧
    strContains
      (compile_examples useLock runPio board (pre ++ e :: post) false).message
      (compile_for_board_and_example runPio board e).2 := by
  obtain ⟨tr, htr, hmap⟩ :=
    compile_examples_go_failure useLock runPio board pre e post true hpre he
  unfold compile_examples
  rw [htr]
  refine ⟨rfl, rfl, hmap, ?_, ?_, ?_⟩
  · exact ⟨"Error building ".data,
      (" for board " ++ board ++ ". stdout:\n").data
        ++ (compile_for_board_and_example runPio board e).2.data,
      by simp [String.data_append]⟩
  · exact ⟨("Error building " ++ e ++ " for board ").data,
      ". stdout:\n".data ++ (compile_for_board_and_example runPio board e).2.data,
      by simp [String.data_append]⟩
  · exact ⟨("Error building " ++ e ++ " for board " ++ board
        ++ ". stdout:\n").data, [], by simp [String.data_append]⟩

/-- The compile oracle for the C2 witness: compiling `Blink` fails with
output `boom`, anything else succeeds. -/
def c2Oracle : String → String → PioResult :=
  fun _ ex => if ex = "Blink" then ⟨1, "boom"⟩ else ⟨0, "ok"⟩

/-- Witness for C2: the spec's end-to-end scenario, batch
`["Blink", "Fade"]` for board `uno` with the first compile failing. -/
theorem compile_examples_failure_witness :
    (compile_examples true c2Oracle "uno" ([] ++ "Blink" :: ["Fade"]) false).success
      = false ∧
    (compile_examples true c2Oracle "uno"
        ([] ++ "Blink" :: ["Fade"]) false).errorHappened = true ∧
    (compile_examples true c2Oracle "uno"
        ([] ++ "Blink" :: ["Fade"]) false).compiled.map Prod.fst
      = [] ++ ["Blink"] ∧
    strContains
      (compile_examples true c2Oracle "uno"
        ([] ++ "Blink" :: ["Fade"]) false).message "Blink" ∧
    strContains
      (compile_examples true c2Oracle "uno"
        ([] ++ "Blink" :: ["Fade"]) false).message "uno" ∧
    strContains
      (compile_examples true c2Oracle "uno"
        ([] ++ "Blink" :: ["Fade"]) false).message
      (compile_for_board_and_example c2Oracle "uno" "Blink").2 :=
  compile_examples_failure true c2Oracle "uno" [] "Blink" ["Fade"]
    (by simp) (by decide)

/-- Every compile after the first runs without the gate: with
`is_first = False`, every trace entry has its gate flag false. -/
theorem compile_examples_go_gates_false (useLock : Bool)
    (runPio : String → String → PioResult) (board : String) :
    ∀ (examples : List String) (flag : Bool) (p : String × Bool),
      p ∈ (compile_examples_go useLock runPio board examples flag false).compiled →
      p.2 = false := by
  intro examples
  induction examples with
  | nil => intro flag p hp; simp [compile_examples_go] at hp
  | cons e rest ih =>
    intro flag p hp
    cases flag with
    | true => simp [compile_examples_go] at hp
    | false =>
      simp only [compile_examples_go, Bool.false_eq_true, if_false] at hp
      cases h : (compile_for_board_and_example runPio board e).1 with
      | true =>
        simp [h] at hp
        rcases hp with hp | hp
        · simp [hp]
        · exact ih false p hp
      | false =>
        simp [h] at hp
        simp [hp]

/-- C3: in every run of `compile_examples`, the trace entry at index `i`
holds the gate iff `i = 0` and the constrained-environment condition
`USE_FIRST_BUILD_LOCK` is true: the gate is acquired around at most one
compile — the first — and only when the condition holds; all non-first
compiles, and the first when the condition is false, run without it. -/
theorem compile_examples_gate_policy (useLock : Bool)
    (runPio : String → String → PioResult) (board : String)
    (examples : List String) (flag : Bool) (i : Nat) (p : String × Bool)
    (hp : (compile_examples useLock runPio board examples flag).compiled[i]?
      = some p) :
    p.2 = (decide (i = 0) && useLock) := by
  cases examples with
  | nil => simp [compile_examples, compile_examples_go] at hp
  | cons e rest =>
    cases flag with
    | true => simp [compile_examples, compile_examples_go] at hp
    | false =>
      simp only [compile_examples, compile_examples_go, Bool.false_eq_true,
        if_false] at hp
      cases h : (compile_for_board_and_example runPio board e).1 with
      | false =>
        simp [h] at hp
        cases i with
        | zero =>
          simp at hp
          simp [← hp]
        | succ j => simp at hp
      | true =>
        simp [h] at hp
        cases i with
        | zero =>
          simp at hp
          simp [← hp]
        | succ j =>
          simp at hp
          have := compile_examples_go_gates_false useLock runPio board rest
            false p (by
              have := List.getElem?_eq_some_iff.mp hp
              obtain ⟨hj, hget⟩ := this
              exact hget ▸ List.getElem_mem hj)
          simp [this]

/-- Witness for C3 at concrete inputs, index 0. -/
theorem compile_examples_gate_policy_witness :
    (compile_examples true okOracle "uno" ["Blink"] false).compiled[0]?
      = some ("Blink", true) ∧
    (("Blink", true) : String × Bool).2 = (decide ((0 : Nat) = 0) && true) :=
  ⟨by decide,
   compile_examples_gate_policy true okOracle "uno" ["Blink"] false 0
     ("Blink", true) (by decide)⟩

end CompileForBoard

namespace Docs

/-- C6: for all values of the release-tag input, latest tag, and short
and full SHAs, the version string is the release tag if non-empty,
otherwise the latest tag if non-empty, otherwise the short SHA; and the
commit message is the version string followed by the full SHA in
parentheses exactly when the version string differs from the short SHA,
and the version string alone otherwise. -/
theorem get_git_info_spec (release_tag latest_tag git_sha_short full_sha : String) :
    (get_git_info release_tag latest_tag git_sha_short full_sha).1
      = (if release_tag ≠ "" then release_tag
         else if latest_tag ≠ "" then latest_tag
         else git_sha_short) ∧
    (get_git_info release_tag latest_tag git_sha_short full_sha).2
      = (if (get_git_info release_tag latest_tag git_sha_short full_sha).1
            ≠ git_sha_short
         then (get_git_info release_tag latest_tag git_sha_short full_sha).1
           ++ " (" ++ full_sha ++ ")"
         else (get_git_info release_tag latest_tag git_sha_short full_sha).1) := by
  constructor
  · by_cases h1 : release_tag = "" <;> by_cases h2 : latest_tag = "" <;>
      simp [get_git_info, pyOr, h1, h2]
  · by_cases h : pyOr release_tag (pyOr latest_tag git_sha_short) = git_sha_short <;>
      simp [get_git_info, h]

/-- C8: toolchain acquisition on the zip-archive (Windows) platform
raises a not-found error exactly when the pattern search locates no
generator executable, and returns the located path otherwise; on the
tarball (Unix) platform it returns the constructed expected binary path
`doxygen-1.11.0/bin/doxygen` unconditionally and never raises a
not-found error. -/
theorem install_doxygen_platforms :
    install_doxygen_windows none
      = .error "Doxygen executable not found after extraction." ∧
    (∀ p, install_doxygen_windows (some p) = .ok p) ∧
    install_doxygen_unix = .ok "doxygen-1.11.0/bin/doxygen" ∧
    ∀ msg, install_doxygen_unix ≠ .error msg := by
  refine ⟨rfl, fun p => rfl, ?_, fun msg h => ?_⟩
  · show Except.ok ("doxygen-" ++ DOXYGEN_VERSION ++ "/bin/doxygen") = _
    rw [show ("doxygen-" ++ DOXYGEN_VERSION ++ "/bin/doxygen" : String)
      = "doxygen-1.11.0/bin/doxygen" from by decide]
  · simp [install_doxygen_unix] at h

/-- Splitting a text never yields an empty list of lines. -/
theorem splitLines_ne_nil : ∀ s : List Char, splitLines s ≠ [] := by
  intro s
  cases s with
  | nil => simp [splitLines]
  | cons c s =>
    simp only [splitLines]
    split
    · simp
    · split <;> simp

/-- No line produced by `splitLines` contains a newline. -/
theorem mem_splitLines_no_newline :
    ∀ (s : List Char) (l : List Char), l ∈ splitLines s → '\n' ∉ l := by
  intro s
  induction s with
  | nil =>
    intro l hl
    simp [splitLines] at hl
    simp [hl]
  | cons c s ih =>
    intro l hl
    by_cases hc : c = '\n'
    · rw [splitLines, if_pos hc] at hl
      rcases List.mem_cons.mp hl with h | h
      · simp [h]
      · exact ih l h
    · rw [splitLines, if_neg hc] at hl
      cases h : splitLines s with
      | nil => exact absurd h (splitLines_ne_nil s)
      | cons l0 ls0 =>
        rw [h] at hl
        rcases List.mem_cons.mp hl with h1 | h1
        · subst h1
          intro hmem
          rcases List.mem_cons.mp hmem with h2 | h2
          · exact hc h2.symm
          · exact ih l0 (h ▸ List.mem_cons_self l0 ls0) h2
        · exact ih l (h ▸ List.mem_cons_of_mem l0 h1)

/-- A newline-free text is a single line. -/
theorem splitLines_of_no_newline :
    ∀ l : List Char, '\n' ∉ l → splitLines l = [l] := by
  intro l
  induction l with
  | nil => intro _; rfl
  | cons c s ih =>
    intro h
    have hc : ¬c = '\n' := fun hc => h (by simp [hc])
    have hs : '\n' ∉ s := fun hs => h (List.mem_cons_of_mem c hs)
    rw [splitLines, if_neg hc, ih hs]

/-- Splitting a text that starts with a newline-free line followed by a
newline peels off that line. -/
theorem splitLines_append_newline :
    ∀ (l r : List Char), '\n' ∉ l →
      splitLines (l ++ '\n' :: r) = l :: splitLines r := by
  intro l
  induction l with
  | nil => intro r _; simp [splitLines]
  | cons c s ih =>
    intro r h
    have hc : ¬c = '\n' := fun hc => h (by simp [hc])
    have hs : '\n' ∉ s := fun hs => h (List.mem_cons_of_mem c hs)
    rw [List.cons_append, splitLines, if_neg hc, ih r hs]

/-- Joining the lines of a text recovers the text. -/
theorem joinLines_splitLines : ∀ s : List Char, joinLines (splitLines s) = s := by
  intro s
  induction s with
  | nil => rfl
  | cons c s ih =>
    by_cases hc : c = '\n'
    · rw [splitLines, if_pos hc]
      cases h : splitLines s with
      | nil => exact absurd h (splitLines_ne_nil s)
      | cons l0 ls0 =>
        rw [h] at ih
        rw [joinLines, List.nil_append, ih, hc]
    · rw [splitLines, if_neg hc]
      cases h : splitLines s with
      | nil => exact absurd h (splitLines_ne_nil s)
      | cons l0 ls0 =>
        rw [h] at ih
        cases ls0 with
        | nil => rw [joinLines] at ih ⊢; rw [ih]
        | cons l1 ls1 =>
          rw [joinLines] at ih ⊢
          rw [List.cons_append, ih]

/-- Splitting the join of nonempty, newline-free lines recovers the
lines. -/
theorem splitLines_joinLines :
    ∀ lls : List (List Char), lls ≠ [] → (∀ l ∈ lls, '\n' ∉ l) →
      splitLines (joinLines lls) = lls := by
  intro lls
  induction lls with
  | nil => intro h _; exact absurd rfl h
  | cons l lls ih =>
    intro _ hnl
    cases lls with
    | nil =>
      rw [joinLines]
      exact splitLines_of_no_newline l (hnl l (List.mem_cons_self l []))
    | cons l1 ls1 =>
      rw [joinLines,
        splitLines_append_newline _ _ (hnl l (List.mem_cons_self l _)),
        ih (by simp) fun x hx => hnl x (List.mem_cons_of_mem l hx)]

/-- A successful continuation consumes at least one line. -/
theorem contMatch_length :
    ∀ (ls r : List (List Char)), contMatch ls = some r →
      r.length < ls.length := by
  intro ls
  induction ls with
  | nil => intro r h; simp [contMatch] at h
  | cons l ls ih =>
    intro r h
    rw [contMatch] at h
    split at h
    · exact Nat.lt_succ_of_lt (ih r h)
    · split at h
      · cases h; exact Nat.lt_succ_self _
      · cases h

/-- Lines remaining after a successful continuation are lines of the
input. -/
theorem contMatch_mem :
    ∀ (ls r : List (List Char)), contMatch ls = some r →
      ∀ x ∈ r, x ∈ ls := by
  intro ls
  induction ls with
  | nil => intro r h; simp [contMatch] at h
  | cons l ls ih =>
    intro r h x hx
    rw [contMatch] at h
    split at h
    · exact List.mem_cons_of_mem l (ih r h x hx)
    · split at h
      · cases h; exact List.mem_cons_of_mem l hx
      · cases h

/-- A successful match leaves at most the following lines. -/
theorem tryMatch_length (l : List Char) (ls r : List (List Char))
    (h : tryMatch l ls = some r) : r.length ≤ ls.length := by
  rw [tryMatch] at h
  split at h
  · split at h
    · exact Nat.le_of_lt (contMatch_length ls r h)
    · split at h
      · cases h; exact Nat.le_refl _
      · cases h
  · cases h

/-- Lines remaining after a successful match are lines of the input. -/
theorem tryMatch_mem (l : List Char) (ls r : List (List Char))
    (h : tryMatch l ls = some r) : ∀ x ∈ r, x ∈ ls := by
  rw [tryMatch] at h
  split at h
  · split at h
    · exact contMatch_mem ls r h
    · split at h
      · cases h; exact fun x hx => hx
      · cases h
  · cases h

/-- With zero fuel the substitution returns the lines unchanged. -/
theorem updLinesF_zero (repl : List Char) (lls : List (List Char)) :
    updLinesF repl 0 lls = lls := by
  cases lls <;> rfl

/-- The substitution never produces more lines than the input. -/
theorem updLinesF_length_le (repl : List Char) :
    ∀ (n : Nat) (lls : List (List Char)),
      (updLinesF repl n lls).length ≤ lls.length := by
  intro n
  induction n with
  | zero => intro lls; rw [updLinesF_zero]
  | succ n ih =>
    intro lls
    cases lls with
    | nil => simp [updLinesF]
    | cons l ls =>
      rw [updLinesF]
      cases ht : tryMatch l ls with
      | some rest =>
        simpa using Nat.succ_le_succ
          (Nat.le_trans (ih rest) (tryMatch_length l ls rest ht))
      | none => simpa using Nat.succ_le_succ (ih ls)

/-- The substitution of a nonempty list of lines is nonempty. -/
theorem updLinesF_ne_nil (repl : List Char) (n : Nat)
    (lls : List (List Char)) (h : lls ≠ []) : updLinesF repl n lls ≠ [] := by
  cases n with
  | zero => rw [updLinesF_zero]; exact h
  | succ n =>
    cases lls with
    | nil => exact absurd rfl h
    | cons l ls =>
      rw [updLinesF]
      cases tryMatch l ls <;> simp

/-- Every output line is the replacement or an input line. -/
theorem updLinesF_mem (repl : List Char) :
    ∀ (n : Nat) (lls : List (List Char)) (l : List Char),
      l ∈ updLinesF repl n lls → l = repl ∨ l ∈ lls := by
  intro n
  induction n with
  | zero => intro lls l hl; rw [updLinesF_zero] at hl; exact Or.inr hl
  | succ n ih =>
    intro lls l hl
    cases lls with
    | nil => simp [updLinesF] at hl
    | cons l0 ls =>
      rw [updLinesF] at hl
      cases ht : tryMatch l0 ls with
      | some rest =>
        rw [ht] at hl
        rcases List.mem_cons.mp hl with h | h
        · exact Or.inl h
        · rcases ih rest l h with h1 | h1
          · exact Or.inl h1
          · exact Or.inr (List.mem_cons_of_mem l0 (tryMatch_mem l0 ls rest ht l h1))
      | none =>
        rw [ht] at hl
        rcases List.mem_cons.mp hl with h | h
        · exact Or.inr (h ▸ List.mem_cons_self l0 ls)
        · rcases ih ls l h with h1 | h1
          · exact Or.inl h1
          · exact Or.inr (List.mem_cons_of_mem l0 h1)

/-- The replacement line is the key, a space, `=`, a space, then the
version. -/
theorem replData_eq (v : String) :
    replData v = KEY ++ (' ' :: '=' :: ' ' :: v.data) := by
  show "PROJECT_NUMBER = ".data ++ v.data = _
  rw [show "PROJECT_NUMBER = ".data = KEY ++ [' ', '=', ' '] from by decide,
    List.append_assoc]
  rfl

/-- A match of the pattern starts at the replacement line and consumes
exactly that line: the replacement re-matches itself. -/
theorem tryMatch_replData (v : String) (ls : List (List Char)) :
    tryMatch (replData v) ls = some ls := by
  rw [tryMatch, replData_eq,
    if_pos (List.isPrefixOf_iff_prefix.mpr ⟨_, rfl⟩),
    List.drop_left' rfl]
  simp [List.dropWhile, isWs]

/-- An all-whitespace line cannot start a match: the key begins with a
non-whitespace character. -/
theorem key_not_prefixOf_ws (l : List Char) (h : l.dropWhile isWs = []) :
    KEY.isPrefixOf l = false := by
  cases l with
  | nil => decide
  | cons c cs =>
    have hc : isWs c = true := by
      by_contra hx
      rw [List.dropWhile_cons, if_neg (by simpa using hx)] at h
      cases h
    have hpc : ('P' == c) = false := by
      cases hpc : ('P' == c) with
      | false => rfl
      | true =>
        have hcp : c = 'P' := (beq_iff_eq.mp hpc).symm
        rw [hcp] at hc
        exact absurd hc (by decide)
    rw [show KEY = 'P' :: "ROJECT_NUMBER".data from by decide]
    simp [List.isPrefixOf, hpc]

/-- The replacement line never continues a pending whitespace run: its
first character is not whitespace and not `=`. -/
theorem contMatch_cons_replData (v : String) (xs : List (List Char)) :
    contMatch (replData v :: xs) = none := by
  rw [contMatch, replData_eq,
    show KEY ++ (' ' :: '=' :: ' ' :: v.data)
      = 'P' :: ("ROJECT_NUMBER".data ++ (' ' :: '=' :: ' ' :: v.data)) from rfl,
    List.dropWhile_cons, if_neg (by decide)]
  simp

/-- Substituting the following lines cannot make a failed whitespace
continuation succeed. -/
theorem contMatch_none_updLinesF (v : String) :
    ∀ (n : Nat) (ls : List (List Char)), contMatch ls = none →
      contMatch (updLinesF (replData v) n ls) = none := by
  intro n
  induction n with
  | zero => intro ls h; rw [updLinesF_zero]; exact h
  | succ n ih =>
    intro ls h
    cases ls with
    | nil => rfl
    | cons l ls =>
      rw [contMatch] at h
      rw [updLinesF]
      split at h
      · next hd =>
        rw [show tryMatch l ls = none from by
          simp [tryMatch, key_not_prefixOf_ws l hd]]
        rw [contMatch, hd]
        exact ih ls h
      · next c cs hd =>
        have hc : ¬c = '=' := by
          intro hx
          rw [if_pos hx] at h
          cases h
        cases ht : tryMatch l ls with
        | some rest => exact contMatch_cons_replData v _
        | none => simp [contMatch, hd, hc]


/-- Substituting the following lines cannot make a failed match at the
current line succeed. -/
theorem tryMatch_none_updLinesF (v : String) (n : Nat) (l : List Char)
    (ls : List (List Char)) (h : tryMatch l ls = none) :
    tryMatch l (updLinesF (replData v) n ls) = none := by
  by_cases hp : KEY.isPrefixOf l
  · rw [tryMatch, if_pos hp] at h ⊢
    cases hd : (l.drop KEY.length).dropWhile isWs with
    | nil =>
      rw [hd] at h
      exact contMatch_none_updLinesF v n ls h
    | cons c cs =>
      rw [hd] at h
      have h' : (if c = '=' then some ls else none) = none := h
      have hc : ¬c = '=' := by
        intro hx
        rw [if_pos hx] at h'
        cases h'
      show (if c = '=' then some (updLinesF (replData v) n ls) else none) = none
      rw [if_neg hc]
  · rw [tryMatch, if_neg hp]

/-- The substitution is stable: running it again over its own output
(with sufficient fuel both times) changes nothing. -/
theorem updLinesF_stable (v : String) :
    ∀ (n : Nat) (lls : List (List Char)) (m : Nat),
      lls.length ≤ n →
      (updLinesF (replData v) n lls).length ≤ m →
      updLinesF (replData v) m (updLinesF (replData v) n lls)
        = updLinesF (replData v) n lls := by
  intro n
  induction n with
  | zero =>
    intro lls m hn _
    have h0 : lls = [] := List.eq_nil_of_length_eq_zero (Nat.le_zero.mp hn)
    subst h0
    rw [updLinesF_zero]
    cases m <;> rfl
  | succ n ih =>
    intro lls m hn hm
    cases lls with
    | nil =>
      rw [show updLinesF (replData v) (n + 1) [] = [] from rfl]
      cases m <;> rfl
    | cons l ls =>
      rw [updLinesF] at hm ⊢
      cases ht : tryMatch l ls with
      | some rest =>
        rw [ht] at hm
        cases m with
        | zero => simp at hm
        | succ m =>
          have h1 : rest.length ≤ n :=
            Nat.le_trans (tryMatch_length l ls rest ht)
              (Nat.le_of_succ_le_succ hn)
          have h2 : (updLinesF (replData v) n rest).length ≤ m := by
            have hm' : (replData v :: updLinesF (replData v) n rest).length
                ≤ m + 1 := hm
            simpa using hm'
          show updLinesF (replData v) (m + 1)
              (replData v :: updLinesF (replData v) n rest)
            = replData v :: updLinesF (replData v) n rest
          simp only [updLinesF, tryMatch_replData]
          rw [ih rest m h1 h2]
      | none =>
        rw [ht] at hm
        cases m with
        | zero => simp at hm
        | succ m =>
          have h2 : (updLinesF (replData v) n ls).length ≤ m := by
            have hm' : (l :: updLinesF (replData v) n ls).length ≤ m + 1 := hm
            simpa using hm'
          show updLinesF (replData v) (m + 1)
              (l :: updLinesF (replData v) n ls)
            = l :: updLinesF (replData v) n ls
          simp only [updLinesF, tryMatch_none_updLinesF v n l ls ht]
          rw [ih ls m (Nat.le_of_succ_le_succ hn) h2]

/-- If no line starts with the key, the substitution is the identity on
the lines. -/
theorem updLinesF_id_of_no_key (repl : List Char) :
    ∀ (n : Nat) (lls : List (List Char)),
      (∀ l ∈ lls, KEY.isPrefixOf l = false) →
      updLinesF repl n lls = lls := by
  intro n
  induction n with
  | zero => intro lls _; exact updLinesF_zero repl lls
  | succ n ih =>
    intro lls hk
    cases lls with
    | nil => rfl
    | cons l ls =>
      simp only [updLinesF,
        show tryMatch l ls = none from by
          simp [tryMatch, hk l (List.mem_cons_self l ls)]]
      rw [ih ls fun x hx => hk x (List.mem_cons_of_mem l hx)]

/-- Rebuilding a string from its character data is the identity. -/
theorem string_mk_data (s : String) : String.mk s.data = s := by
  cases s
  rfl

/-- The replacement line contains no newline when the version string
contains none. -/
theorem replData_no_newline (v : String) (hv : '\n' ∉ v.data) :
    '\n' ∉ replData v := by
  intro hmem
  unfold replData at hmem
  rcases List.mem_append.mp hmem with h1 | h1
  · exact absurd h1 (by decide)
  · exact hv h1

/-- Counterexample to C7: the config patch is not idempotent for every
version string.  With a version string containing a newline that itself
forms a matching line, applying the patch once to `PROJECT_NUMBER = 1`
yields two matching lines, and applying it again duplicates them. -/
theorem update_doxyfile_not_idempotent :
    update_doxyfile "1\nPROJECT_NUMBER = 2"
        (update_doxyfile "1\nPROJECT_NUMBER = 2" "PROJECT_NUMBER = 1")
      ≠ update_doxyfile "1\nPROJECT_NUMBER = 2" "PROJECT_NUMBER = 1" := by
  decide

/-- C7 as amended, for backslash-free version strings (a backslash
would make Python process the replacement as an escape template —
turning `\n` into a newline or raising `invalid group reference` even
when nothing matches — so the claim is restricted to the escape-free
domain): for every config-file text, (a) applying the patch twice with
the same newline-free version string yields the same text as applying
it once; (b) a text in which no line starts with the version-field key
`PROJECT_NUMBER` is returned unchanged; and (c) every line of the
output is an untouched line of the input or the replacement line —
text outside matched regions is never modified, but a matched region
can span several input lines, because the whitespace allowed after the
key by the pattern includes line breaks; idempotence for arbitrary
version strings fails. -/
theorem update_doxyfile_amended (v t : String) :
    ('\\' ∉ v.data → '\n' ∉ v.data →
      update_doxyfile v (update_doxyfile v t) = update_doxyfile v t) ∧
    ('\\' ∉ v.data →
      (∀ l ∈ splitLines t.data, KEY.isPrefixOf l = false) →
      update_doxyfile v t = t) ∧
    ('\\' ∉ v.data → '\n' ∉ v.data →
      ∀ l ∈ splitLines (update_doxyfile v t).data,
        l = replData v ∨ l ∈ splitLines t.data) := by
  have hsplit : '\n' ∉ v.data →
      splitLines ((update_doxyfile v t).data)
        = updLinesF (replData v) (splitLines t.data).length
            (splitLines t.data) := by
    intro hv
    exact splitLines_joinLines _
      (updLinesF_ne_nil _ _ _ (splitLines_ne_nil t.data))
      (fun l hl => by
        rcases updLinesF_mem (replData v) _ _ l hl with h | h
        · exact h ▸ replData_no_newline v hv
        · exact mem_splitLines_no_newline t.data l h)
  refine ⟨?_, ?_, ?_⟩
  · intro _ hv
    show String.mk (joinLines (updLinesF (replData v)
        (splitLines ((update_doxyfile v t).data)).length
        (splitLines ((update_doxyfile v t).data)))) = update_doxyfile v t
    rw [hsplit hv,
      updLinesF_stable v _ _ _ (Nat.le_refl _) (Nat.le_refl _)]
    rfl
  · intro _ hk
    show String.mk (joinLines (updLinesF (replData v)
        (splitLines t.data).length (splitLines t.data))) = t
    rw [updLinesF_id_of_no_key (replData v) _ _ hk, joinLines_splitLines,
      string_mk_data]
  · intro _ hv l hl
    rw [hsplit hv] at hl
    exact updLinesF_mem (replData v) _ _ l hl

/-- Witness for C7's amended theorem at concrete inputs. -/
theorem update_doxyfile_amended_witness :
    update_doxyfile "2.0"
        (update_doxyfile "2.0" "PROJECT_NUMBER = 1.0\nOUTPUT = html")
      = update_doxyfile "2.0" "PROJECT_NUMBER = 1.0\nOUTPUT = html" :=
  (update_doxyfile_amended "2.0" "PROJECT_NUMBER = 1.0\nOUTPUT = html").1
    (by decide) (by decide)

end Docs
